import Mathlib

/-!
Verification of the `how` command-line assistant: response parsing,
not-found detection, install suggestions, confirmation gating and
shell-history integration, embedded shallowly from the Go sources.

Definitions come first, translated from `internal/ui/ui.go` (and, for
the shell-history writer whose implementation is absent from src/,
modelled from the specification); the theorems about them follow.
-/

/-- Whitespace as Go's `unicode.IsSpace` decides it on the Latin-1 range
(the only range these inputs use): tab, newline, vertical tab, form feed,
carriage return, space, next line, no-break space. -/
def goIsSpace (c : Char) : Bool :=
  c = ' ' || c = '\t' || c = '\n' || c = '\x0b' || c = '\x0c' || c = '\r' ||
    c = '\u0085' || c = ' '

/-- Whitespace as the RE2 class `\s` used by Go's `regexp`: exactly
tab, newline, form feed, carriage return and space. -/
def reSpace (c : Char) : Bool :=
  c = '\t' || c = '\n' || c = '\x0c' || c = '\r' || c = ' '

/-- Embeds `strings.TrimSpace` (drop leading and trailing whitespace). -/
def goTrimSpace (s : String) : String :=
  String.mk (((s.data.dropWhile goIsSpace).reverse.dropWhile goIsSpace).reverse)

/-- Embeds `strings.ToLower` on the ASCII range used by the program. -/
def goToLower (s : String) : String :=
  String.mk (s.data.map Char.toLower)

/-- Embeds `strings.HasPrefix`. -/
def goStartsWith (s pre : String) : Bool :=
  pre.data.isPrefixOf s.data

/-- Embeds `strings.TrimPrefix` (drop `pre` from the front of `s` when present). -/
def goStripLeft (s pre : String) : String :=
  if goStartsWith s pre then String.mk (s.data.drop pre.data.length) else s

/-- Embeds `strings.HasSuffix`. -/
def goEndsWith (s suf : String) : Bool :=
  suf.data.isSuffixOf s.data

/-- Embeds `strings.Split(s, "\n")`: cut `s` at every newline, keeping
empty pieces, so the empty string yields one empty line. `cur` holds the
current piece reversed. -/
def splitLinesAux (cur : List Char) : List Char → List String
  | [] => [String.mk cur.reverse]
  | c :: cs =>
    if c = '\n' then String.mk cur.reverse :: splitLinesAux [] cs
    else splitLinesAux (c :: cur) cs

/-- Lines of a response, as `strings.Split(response, "\n")` produces them. -/
def splitLines (s : String) : List String :=
  splitLinesAux [] s.data

/-- Embeds `strings.Fields`: the whitespace-separated tokens of `s`,
with no empty tokens. `cur` holds the current token reversed. -/
def fieldsAux (cur : List Char) : List Char → List String
  | [] => if cur.isEmpty then [] else [String.mk cur.reverse]
  | c :: cs =>
    if goIsSpace c then
      if cur.isEmpty then fieldsAux [] cs
      else String.mk cur.reverse :: fieldsAux [] cs
    else fieldsAux (c :: cur) cs

/-- Embeds `strings.Fields` on a string. -/
def goFields (s : String) : List String :=
  fieldsAux [] s.data

/-- The `Result` record produced by the response parser (`ui.Result`). -/
structure Result where
  Command : String
  Explanation : String
deriving DecidableEq

/-- One iteration of the loop body of `ui.ParseResponse`: trim the line,
and overwrite the command or the explanation field when the line carries
the corresponding prefix marker. -/
def parseLineStep (acc : Result) (rawLine : String) : Result :=
  let line := goTrimSpace rawLine
  if goStartsWith line "COMMAND:" then
    { acc with Command := goTrimSpace (goStripLeft line "COMMAND:") }
  else if goStartsWith line "EXPLANATION:" then
    { acc with Explanation := goTrimSpace (goStripLeft line "EXPLANATION:") }
  else acc

/-- Embeds `ui.ParseResponse`: fold the loop body over the lines of the
response, starting from the zero-valued `Result`. -/
def ParseResponse (response : String) : Result :=
  (splitLines response).foldl parseLineStep ⟨"", ""⟩

/-- Consume a literal character sequence from the front of the input,
returning the rest on success. -/
def litThen : List Char → List Char → Option (List Char)
  | [], cs => some cs
  | _ :: _, [] => none
  | l :: ls, c :: cs => if c = l then litThen ls cs else none

/-- Consume the maximal run matched by the regex fragment `\s*`. -/
def dropReSpaces (cs : List Char) : List Char :=
  cs.dropWhile reSpace

/-- Split off the maximal run matched by `\d+` (possibly empty). -/
def takeDigits : List Char → List Char × List Char
  | [] => ([], [])
  | c :: cs =>
    if c.isDigit then ((c :: (takeDigits cs).1), (takeDigits cs).2)
    else ([], c :: cs)

/-- Split off the maximal run matched by `\S+` (possibly empty). -/
def takeNonSpace : List Char → List Char × List Char
  | [] => ([], [])
  | c :: cs =>
    if reSpace c then ([], c :: cs)
    else ((c :: (takeNonSpace cs).1), (takeNonSpace cs).2)

/-- Tail of `notFoundRe` after the captured token's colon: the fragment
`\s*(?:command )?not found`, with the optional group tried greedily. -/
def matchNotFoundTail (cs : List Char) : Bool :=
  let cs := dropReSpaces cs
  (match litThen "command ".data cs with
   | some cs2 => (litThen "not found".data cs2).isSome
   | none => false)
  || (litThen "not found".data cs).isSome

/-- The capture group `(\S+)` of `notFoundRe` followed by `:` and the
tail, trying token lengths longest-first as the greedy `+` does: the
argument is the token length currently tried against the non-space run
`w`, and `after` is the input past that run. -/
def tokenColonAux (w after : List Char) : Nat → Option (List Char)
  | 0 => none
  | n + 1 =>
    match w.drop (n + 1) with
    | ':' :: rest =>
      if matchNotFoundTail (rest ++ after) then some (w.take (n + 1))
      else tokenColonAux w after n
    | _ => tokenColonAux w after n

/-- Match `(\S+):\s*(?:command )?not found` at the front of the input,
returning the captured token. -/
def tokenColon (cs : List Char) : Option (List Char) :=
  let p := takeNonSpace cs
  tokenColonAux p.1 p.2 (p.1.length - 1)

/-- The optional group `(?:line \d+:\s*)` of `notFoundRe`: on success
return the input past the group. -/
def matchLineSeg (cs : List Char) : Option (List Char) :=
  match litThen "line ".data cs with
  | none => none
  | some cs1 =>
    let p := takeDigits cs1
    if p.1.isEmpty then none
    else
      match p.2 with
      | ':' :: cs3 => some (dropReSpaces cs3)
      | _ => none

/-- Match `ui.notFoundRe`, the pattern
`(?:sh|bash):\s*(?:line \d+:\s*)?(\S+):\s*(?:command )?not found`,
anchored at the front of the input, returning the captured token; the
optional line segment is tried greedily before being dropped. -/
def matchBashAt (cs : List Char) : Option (List Char) :=
  match (match litThen "sh:".data cs with
         | some r => some r
         | none => litThen "bash:".data cs) with
  | none => none
  | some cs1 =>
    let cs2 := dropReSpaces cs1
    match (match matchLineSeg cs2 with
           | some cs3 => tokenColon cs3
           | none => none) with
    | some tok => some tok
    | none => tokenColon cs2

/-- Match `ui.notFoundZshRe`, the pattern
`zsh:\s*command not found:\s*(\S+)`, anchored at the front of the input,
returning the captured token. -/
def matchZshAt (cs : List Char) : Option (List Char) :=
  match litThen "zsh:".data cs with
  | none => none
  | some cs1 =>
    match litThen "command not found:".data (dropReSpaces cs1) with
    | none => none
    | some cs2 =>
      let p := takeNonSpace (dropReSpaces cs2)
      if p.1.isEmpty then none else some p.1

/-- Leftmost search of `Regexp.FindStringSubmatch`: try the anchored
matcher at every start position, left to right, and return the first
capture found. -/
def findSubmatch (m : List Char → Option (List Char)) : List Char → Option (List Char)
  | [] => m []
  | c :: cs =>
    match m (c :: cs) with
    | some tok => some tok
    | none => findSubmatch m cs

/-- Embeds `ui.parseNotFoundCommand`: extract the missing command name
from shell stderr, trying the sh/bash pattern, then the zsh pattern, and
finally falling back to the first field of the original command string. -/
def parseNotFoundCommand (stderr command : String) : String :=
  match findSubmatch matchBashAt stderr.data with
  | some tok => String.mk tok
  | none =>
    match findSubmatch matchZshAt stderr.data with
    | some tok => String.mk tok
    | none =>
      match goFields command with
      | f :: _ => f
      | [] => ""

/-- Host platforms distinguished by `runtime.GOOS` in the source. -/
inductive GOOS where
  | darwin
  | linux
  | other (name : String)
deriving DecidableEq

/-- The execution environment of `ui.installSuggestion`: the host
platform, and whether `exec.LookPath` finds each probed package manager
on the search path. -/
structure Host where
  goos : GOOS
  hasApt : Bool
  hasDnf : Bool
  hasPacman : Bool
deriving DecidableEq

/-- Embeds `ui.installSuggestion`: a platform-aware install hint, probing
`apt`, `dnf`, `pacman` in that order on Linux. -/
def installSuggestion (host : Host) (cmdName : String) : String :=
  match host.goos with
  | .darwin => "Install with: brew install " ++ cmdName
  | .linux =>
    if host.hasApt then "Install with: sudo apt install " ++ cmdName
    else if host.hasDnf then "Install with: sudo dnf install " ++ cmdName
    else if host.hasPacman then "Install with: sudo pacman -S " ++ cmdName
    else "Install " ++ cmdName ++ " using your system package manager"
  | .other _ => "Install " ++ cmdName ++ " using your system package manager"

/-- The error value produced by `cmd.Run`: an exit status carried by an
`exec.ExitError`, or a failure that is not an exit status. -/
inductive ExecError where
  | exit (code : Nat)
  | spawn (msg : String)
deriving DecidableEq

/-- Embeds `ui.RunCommand` as a function of the child process's outcome:
given the error value of `cmd.Run` and the buffered stderr of the child,
return the hint lines emitted to the error stream and the error value
returned to the caller. -/
def RunCommand (host : Host) (command : String) (runErr : Option ExecError)
    (stderrBuf : String) : List String × Option ExecError :=
  let hints :=
    match runErr with
    | some (.exit 127) =>
      let cmdName := parseNotFoundCommand stderrBuf command
      if cmdName ≠ "" then
        ["",
         "  Hint: " ++ cmdName ++ " is not installed.",
         "  " ++ installSuggestion host cmdName]
      else []
    | _ => []
  (hints, runErr)

/-- The observable outcome of `ui.ConfirmAndRun`: a wrapped read error, a
decline returning nil without running anything, or execution of the
confirmed command. -/
inductive ConfirmOutcome where
  | readErr (msg : String)
  | declined
  | run (command : String)
deriving DecidableEq

/-- Embeds `ui.ConfirmAndRun` as a function of the line read from
standard input (or the read error): lowercase and trim the input and run
the command only on `y` or `yes`, returning nil otherwise. -/
def ConfirmAndRun (command : String) (readResult : Except String String) :
    ConfirmOutcome :=
  match readResult with
  | .error e => .readErr e
  | .ok raw =>
    let input := goTrimSpace (goToLower raw)
    if input ≠ "y" ∧ input ≠ "yes" then .declined else .run command

/-- Does the list start with the given character? -/
def headIs (c : Char) : List Char → Bool
  | d :: _ => d == c
  | [] => false

/-- Modelled from the spec: the extended zsh history pattern
`: <digits>:<digits>;<anything>` that classifies one line — the code
holding it (`isZshExtendedHistory`) is absent from src/, only its tests
are. A line matches when it is a colon, a space, a nonempty digit run, a
colon, a nonempty digit run and a semicolon, followed by anything. -/
def isExtendedLineChars : List Char → Bool
  | a :: b :: rest =>
    a == ':' && b == ' ' && !(takeDigits rest).1.isEmpty &&
      headIs ':' (takeDigits rest).2 &&
      !(takeDigits (takeDigits rest).2.tail).1.isEmpty &&
      headIs ';' (takeDigits (takeDigits rest).2.tail).2
  | _ => false

/-- Propositional form of the extended zsh history line pattern
`: <digits>:<digits>;<anything>`, stated by decomposition. -/
def ZshExtLine (line : String) : Prop :=
  ∃ d1 d2 r, d1 ≠ [] ∧ (∀ c ∈ d1, c.isDigit = true)
    ∧ d2 ≠ [] ∧ (∀ c ∈ d2, c.isDigit = true)
    ∧ line.data = ':' :: ' ' :: (d1 ++ ':' :: (d2 ++ ';' :: r))

/-- Modelled from the spec: `isZshExtendedHistory` is absent from src/
(only its tests are). It reads the target file and classifies it as
zsh-extended exactly when at least one existing line matches the extended
pattern; a nonexistent (or unreadable) file — modelled as `none` — and an
empty file classify as plain. -/
def isZshExtendedHistory (content : Option String) : Bool :=
  match content with
  | none => false
  | some c => (splitLines c).any fun l => isExtendedLineChars l.data

/-- Modelled from the spec: `shellHistoryFile` is absent from src/ (only
its tests are). The environment reads are explicit parameters: `histfile`
is the history-file-path override (empty when unset, as `os.Getenv`
reports it) and is used verbatim when present; otherwise a shell path
ending in `zsh` resolves to `~/.zsh_history`, one ending in `bash` to
`~/.bash_history`, and any other shell to no history file (empty). -/
def shellHistoryFile (histfile home shell : String) : String :=
  if histfile ≠ "" then histfile
  else if goEndsWith shell "zsh" then home ++ "/.zsh_history"
  else if goEndsWith shell "bash" then home ++ "/.bash_history"
  else ""

/-- Modelled from the spec: the appended history entry. For a
zsh-extended file the new line is `: <epoch-seconds>:0;<command>` with a
trailing newline (the duration field is always `0`); for a plain or
absent file it is the bare command with a trailing newline. Existing
content is kept in front, never rewritten. -/
def appendHistoryLine (epoch : Nat) (content : Option String) (command : String) :
    String :=
  if isZshExtendedHistory content then
    content.getD "" ++ (": " ++ toString epoch ++ ":0;" ++ command ++ "\n")
  else
    content.getD "" ++ (command ++ "\n")

/-- Modelled from the spec: `addToShellHistory` is absent from src/ (only
its tests are). Resolve the history file from the environment; when no
file resolves the operation is a no-op on the file system (modelled as a
map from paths to contents), otherwise the formatted entry is appended to
the resolved file. -/
def addToShellHistory (histfile home shell : String) (epoch : Nat)
    (fs : String → Option String) (command : String) : String → Option String :=
  let path := shellHistoryFile histfile home shell
  if path = "" then fs
  else fun p =>
    if p = path then some (appendHistoryLine epoch (fs path) command) else fs p

example : ParseResponse "COMMAND: ls -la\nEXPLANATION: List all files" =
    ⟨"ls -la", "List all files"⟩ := by decide

example : ParseResponse "" = ⟨"", ""⟩ := by decide

example : ParseResponse "  COMMAND:   find .   \n  EXPLANATION:   Find files   " =
    ⟨"find .", "Find files"⟩ := by decide

example : ParseResponse "COMMAND: a\nCOMMAND: b" = ⟨"b", ""⟩ := by decide

example : parseNotFoundCommand "sh: ss: command not found\n" "ss -tuln" = "ss" := by decide

example : parseNotFoundCommand "bash: line 1: htop: command not found\n" "htop" = "htop" := by decide

example : parseNotFoundCommand "zsh: command not found: rg\n" "rg foo" = "rg" := by decide

example : parseNotFoundCommand "some unexpected error\n" "nonexistent --flag" = "nonexistent" := by decide

example : isZshExtendedHistory (some ": 1700000000:0;ls\n: 1700000001:0;pwd\n") = true := by decide

example : isZshExtendedHistory (some "ls\npwd\n") = false := by decide

example : isZshExtendedHistory (some "") = false := by decide

example : isZshExtendedHistory none = false := by decide

/-- A trimmed line cannot carry both the command marker and the
explanation marker: the markers begin with different characters. -/
theorem not_both_markers (l : String) (h1 : goStartsWith l "COMMAND:" = true)
    (h2 : goStartsWith l "EXPLANATION:" = true) : False := by
  unfold goStartsWith at h1 h2
  rw [List.isPrefixOf_iff_prefix] at h1 h2
  obtain ⟨t1, ht1⟩ := h1
  obtain ⟨t2, ht2⟩ := h2
  have e1 : l.data.head? = some 'C' := by rw [← ht1]; rfl
  have e2 : l.data.head? = some 'E' := by rw [← ht2]; rfl
  rw [e1] at e2
  simp at e2

/-- Effect of one loop iteration on the command field. -/
theorem parseLineStep_command (acc : Result) (l : String) :
    (parseLineStep acc l).Command =
      if goStartsWith (goTrimSpace l) "COMMAND:" = true then
        goTrimSpace (goStripLeft (goTrimSpace l) "COMMAND:")
      else acc.Command := by
  unfold parseLineStep
  by_cases h1 : goStartsWith (goTrimSpace l) "COMMAND:" = true
  · simp [h1]
  · by_cases h2 : goStartsWith (goTrimSpace l) "EXPLANATION:" = true <;>
      simp [h1, h2]

/-- Effect of one loop iteration on the explanation field. -/
theorem parseLineStep_explanation (acc : Result) (l : String) :
    (parseLineStep acc l).Explanation =
      if goStartsWith (goTrimSpace l) "EXPLANATION:" = true then
        goTrimSpace (goStripLeft (goTrimSpace l) "EXPLANATION:")
      else acc.Explanation := by
  unfold parseLineStep
  by_cases h1 : goStartsWith (goTrimSpace l) "COMMAND:" = true
  · have h2 : ¬ goStartsWith (goTrimSpace l) "EXPLANATION:" = true :=
      fun h2 => not_both_markers _ h1 h2
    simp [h1, h2]
  · by_cases h2 : goStartsWith (goTrimSpace l) "EXPLANATION:" = true <;>
      simp [h1, h2]

/-- The fold underlying `ParseResponse` leaves the command field equal to
the value extracted from the last line carrying the command marker, or to
the accumulator's field when no line carries it. -/
theorem foldl_last_command (lines : List String) (acc : Result) :
    (lines.foldl parseLineStep acc).Command =
      match lines.reverse.find? (fun l => goStartsWith (goTrimSpace l) "COMMAND:") with
      | some l => goTrimSpace (goStripLeft (goTrimSpace l) "COMMAND:")
      | none => acc.Command := by
  induction lines generalizing acc with
  | nil => rfl
  | cons l ls ih =>
    rw [List.foldl_cons, ih, List.reverse_cons, List.find?_append]
    cases h : ls.reverse.find? (fun l => goStartsWith (goTrimSpace l) "COMMAND:") with
    | some x => rfl
    | none =>
      simp only [Option.none_or, List.find?]
      by_cases hc : goStartsWith (goTrimSpace l) "COMMAND:" = true <;>
        simp [hc, parseLineStep_command]

/-- The fold underlying `ParseResponse` leaves the explanation field equal
to the value extracted from the last line carrying the explanation marker,
or to the accumulator's field when no line carries it. -/
theorem foldl_last_explanation (lines : List String) (acc : Result) :
    (lines.foldl parseLineStep acc).Explanation =
      match lines.reverse.find? (fun l => goStartsWith (goTrimSpace l) "EXPLANATION:") with
      | some l => goTrimSpace (goStripLeft (goTrimSpace l) "EXPLANATION:")
      | none => acc.Explanation := by
  induction lines generalizing acc with
  | nil => rfl
  | cons l ls ih =>
    rw [List.foldl_cons, ih, List.reverse_cons, List.find?_append]
    cases h : ls.reverse.find? (fun l => goStartsWith (goTrimSpace l) "EXPLANATION:") with
    | some x => rfl
    | none =>
      simp only [Option.none_or, List.find?]
      by_cases hc : goStartsWith (goTrimSpace l) "EXPLANATION:" = true <;>
        simp [hc, parseLineStep_explanation]

theorem headIs_iff (c : Char) (cs : List Char) :
    headIs c cs = true ↔ ∃ t, cs = c :: t := by
  cases cs with
  | nil => simp [headIs]
  | cons d t =>
    simp only [headIs, beq_iff_eq, List.cons.injEq]
    constructor
    · intro h; exact ⟨t, h, rfl⟩
    · rintro ⟨t2, rfl, rfl⟩; rfl

theorem takeDigits_append (cs : List Char) :
    (takeDigits cs).1 ++ (takeDigits cs).2 = cs := by
  induction cs with
  | nil => rfl
  | cons c cs ih =>
    rw [takeDigits]
    by_cases h : c.isDigit = true <;> simp [h, ih]

theorem takeDigits_all_digits (cs : List Char) :
    ∀ c ∈ (takeDigits cs).1, c.isDigit = true := by
  induction cs with
  | nil => intro c hc; simp [takeDigits] at hc
  | cons c cs ih =>
    intro x hx
    rw [takeDigits] at hx
    by_cases h : c.isDigit = true
    · simp [h] at hx
      rcases hx with rfl | hx
      · exact h
      · exact ih x hx
    · simp [h] at hx

theorem takeDigits_of_digits (ds : List Char) (d : Char) (r : List Char)
    (hds : ∀ c ∈ ds, c.isDigit = true) (hd : d.isDigit = false) :
    takeDigits (ds ++ d :: r) = (ds, d :: r) := by
  induction ds with
  | nil => simp [takeDigits, hd]
  | cons c cs ih =>
    rw [List.cons_append, takeDigits,
      ih fun x hx => hds x (List.mem_cons_of_mem c hx)]
    simp [hds c (List.mem_cons_self c cs)]

/-- The executable line matcher agrees with the decomposed pattern. -/
theorem isExtendedLineChars_iff (cs : List Char) :
    isExtendedLineChars cs = true ↔
      ∃ d1 d2 r, d1 ≠ [] ∧ (∀ c ∈ d1, c.isDigit = true)
        ∧ d2 ≠ [] ∧ (∀ c ∈ d2, c.isDigit = true)
        ∧ cs = ':' :: ' ' :: (d1 ++ ':' :: (d2 ++ ';' :: r)) := by
  constructor
  · intro h
    match cs with
    | [] => simp [isExtendedLineChars] at h
    | [a] => simp [isExtendedLineChars] at h
    | a :: b :: rest =>
      rw [isExtendedLineChars] at h
      simp only [Bool.and_eq_true, beq_iff_eq, Bool.not_eq_true',
        List.isEmpty_eq_false] at h
      obtain ⟨⟨⟨⟨⟨rfl, rfl⟩, hne1⟩, hcolon⟩, hne2⟩, hsemi⟩ := h
      obtain ⟨rest2, hrest2⟩ := (headIs_iff ':' _).mp hcolon
      rw [hrest2] at hne2 hsemi
      simp only [List.tail_cons] at hne2 hsemi
      obtain ⟨r, hr⟩ := (headIs_iff ';' _).mp hsemi
      refine ⟨(takeDigits rest).1, (takeDigits rest2).1, r,
        hne1, takeDigits_all_digits rest, hne2, takeDigits_all_digits rest2, ?_⟩
      have e1 := takeDigits_append rest
      have e2 := takeDigits_append rest2
      rw [hrest2] at e1
      rw [hr] at e2
      rw [← e2] at e1
      conv_lhs => rw [← e1]
  · rintro ⟨d1, d2, r, h1, h2, h3, h4, rfl⟩
    rw [isExtendedLineChars,
      takeDigits_of_digits d1 ':' (d2 ++ ';' :: r) h2 (by decide)]
    simp only [List.tail_cons,
      takeDigits_of_digits d2 ';' r h4 (by decide)]
    simp [h1, h3, headIs]

/-- C4: for every response, `ParseResponse` sets the command field to the
whitespace-trimmed text following the `COMMAND:` marker of the last line
whose trimmed form starts with `COMMAND:`, and the explanation field
likewise for `EXPLANATION:`; unmatched lines are ignored and, when a
marker appears on several lines, the last occurrence wins. -/
theorem C4_parse_last_occurrence_wins (response : String) :
    ((ParseResponse response).Command =
      match (splitLines response).reverse.find?
          (fun l => goStartsWith (goTrimSpace l) "COMMAND:") with
      | some l => goTrimSpace (goStripLeft (goTrimSpace l) "COMMAND:")
      | none => "")
    ∧ ((ParseResponse response).Explanation =
      match (splitLines response).reverse.find?
          (fun l => goStartsWith (goTrimSpace l) "EXPLANATION:") with
      | some l => goTrimSpace (goStripLeft (goTrimSpace l) "EXPLANATION:")
      | none => "") := by
  constructor
  · rw [ParseResponse, foldl_last_command]
  · rw [ParseResponse, foldl_last_explanation]

/-- C9, counterexample: the response `"EXPLANATION: hi"` has no line whose
trimmed form starts with `COMMAND:`, yet `ParseResponse` does not leave
both fields empty — the explanation field is `"hi"`. -/
theorem C9_counterexample :
    (∀ l ∈ splitLines "EXPLANATION: hi",
      goStartsWith (goTrimSpace l) "COMMAND:" = false)
    ∧ ¬((ParseResponse "EXPLANATION: hi").Command = ""
        ∧ (ParseResponse "EXPLANATION: hi").Explanation = "") := by
  decide

/-- C9, amended: `ParseResponse` is total and its command field is never
null: when no line's trimmed form starts with `COMMAND:` the command field
is the empty string, and when additionally no line's trimmed form starts
with `EXPLANATION:` (in particular for the empty response) both fields are
empty — data for the caller, not an error. -/
theorem C9_no_command_line_yields_empty (response : String) :
    ((∀ l ∈ splitLines response,
        goStartsWith (goTrimSpace l) "COMMAND:" = false) →
      (ParseResponse response).Command = "")
    ∧ ((∀ l ∈ splitLines response,
        goStartsWith (goTrimSpace l) "COMMAND:" = false ∧
          goStartsWith (goTrimSpace l) "EXPLANATION:" = false) →
      (ParseResponse response).Command = ""
        ∧ (ParseResponse response).Explanation = "") := by
  have hc : ∀ (h : ∀ l ∈ splitLines response,
      goStartsWith (goTrimSpace l) "COMMAND:" = false),
      (ParseResponse response).Command = "" := by
    intro h
    rw [ParseResponse, foldl_last_command]
    have hn : (splitLines response).reverse.find?
        (fun l => goStartsWith (goTrimSpace l) "COMMAND:") = none := by
      rw [List.find?_eq_none]
      intro x hx
      simp [h x (List.mem_reverse.mp hx)]
    rw [hn]
  refine ⟨hc, fun h => ⟨hc (fun l hl => (h l hl).1), ?_⟩⟩
  rw [ParseResponse, foldl_last_explanation]
  have hn : (splitLines response).reverse.find?
      (fun l => goStartsWith (goTrimSpace l) "EXPLANATION:") = none := by
    rw [List.find?_eq_none]
    intro x hx
    simp [(h x (List.mem_reverse.mp hx)).2]
  rw [hn]

/-- C9, witness: the amended theorem applied to the response
`"hello world"`, which has no marker lines at all. -/
theorem C9_no_command_line_yields_empty_witness :
    (ParseResponse "hello world").Command = ""
      ∧ (ParseResponse "hello world").Explanation = "" :=
  (C9_no_command_line_yields_empty "hello world").2 (by decide)

/-- C1: the parser in the source performs no backtick normalization —
a command wrapped in single backticks, triple backticks, or carrying an
unmatched leading backtick keeps those backticks in `Result.Command`, so
it does not equal the bare command parsed from a fence-free response
(contradicting the repository's own test for backtick stripping). -/
theorem C1_no_backtick_stripping :
    (ParseResponse "COMMAND: `ls -la`\nEXPLANATION: List files").Command = "`ls -la`"
    ∧ (ParseResponse "COMMAND: ```ls -la```\nEXPLANATION: List files").Command = "```ls -la```"
    ∧ (ParseResponse "COMMAND: `gh api -X GET /repos/owner/repo/actions\nEXPLANATION: Get actions").Command
        = "`gh api -X GET /repos/owner/repo/actions"
    ∧ (ParseResponse "COMMAND: ls -la\nEXPLANATION: List files").Command = "ls -la"
    ∧ ("`ls -la`" : String) ≠ "ls -la" := by
  decide

/-- C3: on exit status 127 the missing command name is extracted from the
buffered stderr by trying the sh/bash pattern first, then the zsh
pattern, then falling back to the first whitespace-delimited token of the
original command; in particular the three stderr shapes named in the spec
yield `ss`, `htop` and `rg`. -/
theorem C3_not_found_extraction :
    (∀ stderr command : String,
      (∀ n, findSubmatch matchBashAt stderr.data = some n →
        parseNotFoundCommand stderr command = String.mk n)
      ∧ (∀ n, findSubmatch matchBashAt stderr.data = none →
          findSubmatch matchZshAt stderr.data = some n →
          parseNotFoundCommand stderr command = String.mk n)
      ∧ (findSubmatch matchBashAt stderr.data = none →
          findSubmatch matchZshAt stderr.data = none →
          parseNotFoundCommand stderr command = (goFields command).headD ""))
    ∧ parseNotFoundCommand "sh: ss: command not found\n" "ss -tuln" = "ss"
    ∧ parseNotFoundCommand "bash: line 1: htop: command not found\n" "htop" = "htop"
    ∧ parseNotFoundCommand "zsh: command not found: rg\n" "rg foo" = "rg" := by
  refine ⟨fun stderr command => ⟨?_, ?_, ?_⟩, by decide, by decide, by decide⟩
  · intro n h
    simp [parseNotFoundCommand, h]
  · intro n h1 h2
    simp [parseNotFoundCommand, h1, h2]
  · intro h1 h2
    simp only [parseNotFoundCommand, h1, h2]
    cases hf : goFields command <;> simp

/-- C3, witness: the priority clause of the extraction theorem applied to
the concrete stderr of a missing `ss`, where the sh/bash pattern matches
and captures `ss`. -/
theorem C3_not_found_extraction_witness :
    parseNotFoundCommand "sh: ss: command not found\n" "x" = String.mk "ss".data :=
  (C3_not_found_extraction.1 "sh: ss: command not found\n" "x").1 "ss".data (by decide)

/-- C7: `RunCommand` returns the underlying execution error unchanged for
every command, child outcome and buffered stderr — the not-found hint
only ever goes to the error stream and never alters the returned error. -/
theorem C7_run_command_error_passthrough (host : Host) (command : String)
    (runErr : Option ExecError) (stderrBuf : String) :
    (RunCommand host command runErr stderrBuf).2 = runErr := by
  rfl

/-- C8: the install hint is chosen by host platform — Homebrew on macOS;
on Linux `apt`, then `dnf`, then `pacman` in that priority order with a
generic system-package-manager message when none is present; the generic
message on any other platform. -/
theorem C8_install_suggestion_by_platform (host : Host) (cmdName : String) :
    (host.goos = .darwin →
      installSuggestion host cmdName = "Install with: brew install " ++ cmdName)
    ∧ (host.goos = .linux → host.hasApt = true →
      installSuggestion host cmdName = "Install with: sudo apt install " ++ cmdName)
    ∧ (host.goos = .linux → host.hasApt = false → host.hasDnf = true →
      installSuggestion host cmdName = "Install with: sudo dnf install " ++ cmdName)
    ∧ (host.goos = .linux → host.hasApt = false → host.hasDnf = false →
        host.hasPacman = true →
      installSuggestion host cmdName = "Install with: sudo pacman -S " ++ cmdName)
    ∧ (host.goos = .linux → host.hasApt = false → host.hasDnf = false →
        host.hasPacman = false →
      installSuggestion host cmdName =
        "Install " ++ cmdName ++ " using your system package manager")
    ∧ (∀ o, host.goos = .other o →
      installSuggestion host cmdName =
        "Install " ++ cmdName ++ " using your system package manager") := by
  refine ⟨fun h => ?_, fun h h1 => ?_, fun h h1 h2 => ?_, fun h h1 h2 h3 => ?_,
    fun h h1 h2 h3 => ?_, fun o h => ?_⟩ <;>
    simp [installSuggestion, h] <;> simp_all

/-- C8, witness: the priority order applied to a Linux host where `apt`
is absent and both `dnf` and `pacman` are present — `dnf` wins. -/
theorem C8_install_suggestion_by_platform_witness :
    installSuggestion ⟨.linux, false, true, true⟩ "ripgrep" =
      "Install with: sudo dnf install " ++ "ripgrep" :=
  (C8_install_suggestion_by_platform ⟨.linux, false, true, true⟩ "ripgrep").2.2.1
    rfl rfl rfl

/-- C10: when the child exits 127 but neither not-found pattern matches
the buffered stderr and the original command is empty or all whitespace,
the extracted name is empty, no hint is emitted at all, and the execution
error is still returned. -/
theorem C10_no_hint_on_blank_command (host : Host) (command stderr : String)
    (hb : findSubmatch matchBashAt stderr.data = none)
    (hz : findSubmatch matchZshAt stderr.data = none)
    (hw : ∀ c ∈ command.data, goIsSpace c = true) :
    parseNotFoundCommand stderr command = ""
    ∧ (RunCommand host command (some (.exit 127)) stderr).1 = []
    ∧ (RunCommand host command (some (.exit 127)) stderr).2 = some (.exit 127) := by
  have hf : goFields command = [] := by
    rw [goFields]
    have : ∀ cs : List Char, (∀ c ∈ cs, goIsSpace c = true) → fieldsAux [] cs = [] := by
      intro cs
      induction cs with
      | nil => intro _; rfl
      | cons c cs ih =>
        intro h
        rw [fieldsAux]
        simp [h c (List.mem_cons_self c cs), ih fun x hx => h x (List.mem_cons_of_mem c hx)]
    exact this command.data hw
  have hp : parseNotFoundCommand stderr command = "" := by
    simp [parseNotFoundCommand, hb, hz, hf]
  refine ⟨hp, ?_, rfl⟩
  simp [RunCommand, hp]

/-- C10, witness: a blank command with unrecognizable stderr under exit
status 127 yields no hint lines and the unchanged error. -/
theorem C10_no_hint_on_blank_command_witness :
    parseNotFoundCommand "boom" "   " = ""
    ∧ (RunCommand ⟨.linux, true, true, true⟩ "   " (some (.exit 127)) "boom").1 = []
    ∧ (RunCommand ⟨.linux, true, true, true⟩ "   " (some (.exit 127)) "boom").2
        = some (.exit 127) :=
  C10_no_hint_on_blank_command ⟨.linux, true, true, true⟩ "   " "boom"
    (by decide) (by decide) (by decide)

/-- C6: the command is executed exactly when the line read from standard
input equals `y` or `yes` after lowercasing and trimming; any other
successfully-read line — empty, `n`, or arbitrary text — declines with no
execution and a nil error. -/
theorem C6_confirm_gates_execution (command raw : String) :
    (ConfirmAndRun command (.ok raw) = .run command ↔
      goTrimSpace (goToLower raw) = "y" ∨ goTrimSpace (goToLower raw) = "yes")
    ∧ (goTrimSpace (goToLower raw) ≠ "y" → goTrimSpace (goToLower raw) ≠ "yes" →
      ConfirmAndRun command (.ok raw) = .declined) := by
  constructor
  · constructor
    · intro h
      by_contra hn
      push_neg at hn
      simp [ConfirmAndRun, hn.1, hn.2] at h
    · intro h
      rcases h with h | h <;> simp [ConfirmAndRun, h]
  · intro h1 h2
    simp [ConfirmAndRun, h1, h2]

/-- C6, witness: `"n"` declines and a padded `" Yes"` runs. -/
theorem C6_confirm_gates_execution_witness :
    ConfirmAndRun "ls -la" (.ok "n\n") = .declined
    ∧ ConfirmAndRun "ls -la" (.ok " Yes\n") = .run "ls -la" :=
  ⟨(C6_confirm_gates_execution "ls -la" "n\n").2 (by decide) (by decide),
   (C6_confirm_gates_execution "ls -la" " Yes\n").1.mpr (Or.inr (by decide))⟩

/-- C2: the writer classifies a file as zsh-extended exactly when some
existing line matches `: <digits>:<digits>;<anything>` (a nonexistent or
empty file is plain); appending to a zsh-extended file adds the line
`: <epoch-seconds>:0;<command>` plus newline, appending to a plain or
absent file adds the bare command plus newline, and in either case the
existing content is kept unchanged in front. -/
theorem C2_history_classification_and_append :
    (∀ content : Option String,
      isZshExtendedHistory content = true ↔
        ∃ c, content = some c ∧ ∃ line ∈ splitLines c, ZshExtLine line)
    ∧ isZshExtendedHistory none = false
    ∧ isZshExtendedHistory (some "") = false
    ∧ (∀ (epoch : Nat) (content command : String),
        isZshExtendedHistory (some content) = true →
        appendHistoryLine epoch (some content) command =
          content ++ (": " ++ toString epoch ++ ":0;" ++ command ++ "\n"))
    ∧ (∀ (epoch : Nat) (content command : String),
        isZshExtendedHistory (some content) = false →
        appendHistoryLine epoch (some content) command = content ++ (command ++ "\n"))
    ∧ (∀ (epoch : Nat) (command : String),
        appendHistoryLine epoch none command = command ++ "\n") := by
  refine ⟨?_, rfl, by decide, ?_, ?_, ?_⟩
  · intro content
    cases content with
    | none => simp [isZshExtendedHistory]
    | some c =>
      simp only [isZshExtendedHistory, List.any_eq_true, Option.some.injEq]
      constructor
      · rintro ⟨line, hmem, hline⟩
        exact ⟨c, rfl, line, hmem, (isExtendedLineChars_iff line.data).mp hline⟩
      · rintro ⟨c2, rfl, line, hmem, hline⟩
        exact ⟨line, hmem, (isExtendedLineChars_iff line.data).mpr hline⟩
  · intro epoch content command h
    simp [appendHistoryLine, h]
  · intro epoch content command h
    simp [appendHistoryLine, h]
  · intro epoch command
    simp [appendHistoryLine, isZshExtendedHistory]

/-- C2, witness: a file holding one extended-format line classifies as
zsh-extended and receives an extended entry; a plain two-line file
receives the bare command. -/
theorem C2_history_classification_and_append_witness :
    (∃ c, (some ": 1700000000:0;ls -la\n" : Option String) = some c
      ∧ ∃ line ∈ splitLines c, ZshExtLine line)
    ∧ appendHistoryLine 1700000005 (some ": 1700000000:0;ls -la\n") "git status" =
      ": 1700000000:0;ls -la\n" ++
        (": " ++ toString 1700000005 ++ ":0;" ++ "git status" ++ "\n")
    ∧ appendHistoryLine 3 (some "ls\npwd\n") "git status" =
      "ls\npwd\n" ++ ("git status" ++ "\n") :=
  ⟨(C2_history_classification_and_append.1 _).mp (by decide),
   C2_history_classification_and_append.2.2.2.1 1700000005 _ "git status" (by decide),
   C2_history_classification_and_append.2.2.2.2.1 3 _ "git status" (by decide)⟩

/-- C5: an explicit override is used verbatim regardless of shell;
otherwise a shell path ending in `zsh` resolves to the zsh default and
one ending in `bash` to the bash default under the home directory; any
other shell resolves to no history file, and appending is then a no-op
on the file system rather than an error. -/
theorem C5_history_file_resolution (histfile home shell : String) :
    (histfile ≠ "" → shellHistoryFile histfile home shell = histfile)
    ∧ (histfile = "" → goEndsWith shell "zsh" = true →
        shellHistoryFile histfile home shell = home ++ "/.zsh_history")
    ∧ (histfile = "" → goEndsWith shell "zsh" = false →
        goEndsWith shell "bash" = true →
        shellHistoryFile histfile home shell = home ++ "/.bash_history")
    ∧ (histfile = "" → goEndsWith shell "zsh" = false →
        goEndsWith shell "bash" = false →
        shellHistoryFile histfile home shell = "")
    ∧ (∀ (epoch : Nat) (fs : String → Option String) (command : String),
        shellHistoryFile histfile home shell = "" →
        addToShellHistory histfile home shell epoch fs command = fs) := by
  refine ⟨fun h => ?_, fun h h1 => ?_, fun h h1 h2 => ?_, fun h h1 h2 => ?_,
    fun epoch fs command h => ?_⟩
  · simp [shellHistoryFile, h]
  · simp [shellHistoryFile, h, h1]
  · simp [shellHistoryFile, h, h1, h2]
  · simp [shellHistoryFile, h, h1, h2]
  · simp [addToShellHistory, h]

/-- C5, witness: the zsh default under a concrete home, and the no-op on
an unsupported shell. -/
theorem C5_history_file_resolution_witness :
    shellHistoryFile "" "/home/user" "/bin/zsh" = "/home/user" ++ "/.zsh_history"
    ∧ addToShellHistory "" "/home/user" "/bin/fish" 7 (fun _ => none) "ls" =
        (fun _ => none) :=
  ⟨(C5_history_file_resolution "" "/home/user" "/bin/zsh").2.1 rfl (by decide),
   (C5_history_file_resolution "" "/home/user" "/bin/fish").2.2.2.2 7
     (fun _ => none) "ls" (by decide)⟩
